import Mathlib

/-!
Verification development for the deep-searcher agentic RAG engine.

The definitions below are shallow embeddings of the Python source:
strings are `List Char`, Python exceptions become `Except PyErr`,
LLM / vector-store calls are passed in as explicit oracle arguments,
and floating point fields that no property touches are carried as `Int`.
-/

namespace DeepSearcher

/-- Characters of a string literal, used to write `List Char` values readably. -/
def strL (s : String) : List Char := s.toList

/-- Embeds Python `str.startswith`: does `n` occur at the head of `h`? -/
def startsWithL : List Char → List Char → Bool
  | _, [] => true
  | [], _ :: _ => false
  | a :: as, b :: bs => a = b && startsWithL as bs

/-- Embeds Python `needle in hay` on strings (substring containment). -/
def containsSub (hay needle : List Char) : Bool :=
  startsWithL hay needle ||
    match hay with
    | [] => false
    | _ :: t => containsSub t needle

/-- Embeds Python `str.find`: index of the first occurrence of `needle`, `-1` if absent. -/
def pyFind (hay needle : List Char) : Int :=
  if startsWithL hay needle then 0
  else
    match hay with
    | [] => -1
    | _ :: t =>
      let r := pyFind t needle
      if r < 0 then -1 else r + 1

/-- Embeds Python `str.endswith` via reversal. -/
def endsWithL (hay needle : List Char) : Bool :=
  startsWithL hay.reverse needle.reverse

/-- Embeds Python `str.strip()` (whitespace removed from both ends). -/
def pyStrip (s : List Char) : List Char :=
  ((s.dropWhile Char.isWhitespace).reverse.dropWhile Char.isWhitespace).reverse

/-- Embeds Python `s[a:-b]` slicing as used in the code-fence peeling. -/
def pySlice (s : List Char) (a b : Nat) : List Char :=
  (s.drop a).take ((s.drop a).length - b)

/-- The Python exception kinds the embedded code can raise. -/
inductive PyErr where
  | valueError
  | attributeError
  | indexError
  | typeError
deriving DecidableEq, Repr

/-- Python literal values as produced by `ast.literal_eval` on the inputs the
engine cares about (`None`, booleans, integers, strings, lists). -/
inductive PyVal where
  | vNone : PyVal
  | vBool : Bool → PyVal
  | vInt : Int → PyVal
  | vStr : List Char → PyVal
  | vList : List PyVal → PyVal
deriving Repr

mutual

/-- Boolean equality on `PyVal`. -/
def PyVal.beq : PyVal → PyVal → Bool
  | .vNone, .vNone => true
  | .vBool a, .vBool b => a = b
  | .vInt a, .vInt b => a = b
  | .vStr a, .vStr b => a = b
  | .vList a, .vList b => PyVal.beqList a b
  | _, _ => false

/-- Boolean equality on lists of `PyVal`. -/
def PyVal.beqList : List PyVal → List PyVal → Bool
  | [], [] => true
  | a :: as, b :: bs => PyVal.beq a b && PyVal.beqList as bs
  | _, _ => false

end

mutual

theorem PyVal.beq_iff : ∀ a b : PyVal, PyVal.beq a b = true ↔ a = b
  | .vNone, b => by cases b <;> simp [PyVal.beq]
  | .vBool x, b => by cases b <;> simp [PyVal.beq]
  | .vInt x, b => by cases b <;> simp [PyVal.beq]
  | .vStr x, b => by cases b <;> simp [PyVal.beq]
  | .vList xs, b => by
      cases b <;> simp [PyVal.beq]
      exact PyVal.beqList_iff xs _

theorem PyVal.beqList_iff : ∀ a b : List PyVal, PyVal.beqList a b = true ↔ a = b
  | [], [] => by simp [PyVal.beqList]
  | [], _ :: _ => by simp [PyVal.beqList]
  | _ :: _, [] => by simp [PyVal.beqList]
  | a :: as, b :: bs => by
      simp only [PyVal.beqList, Bool.and_eq_true, List.cons.injEq]
      rw [PyVal.beq_iff a b, PyVal.beqList_iff as bs]

end

instance : DecidableEq PyVal := fun a b =>
  decidable_of_iff (PyVal.beq a b = true) (PyVal.beq_iff a b)

/-- Skip leading whitespace (helper inside the literal parser). -/
def skipWs (s : List Char) : List Char := s.dropWhile Char.isWhitespace

/-- Value of a run of ASCII digits; `none` if empty or a non-digit occurs. -/
def digitsVal : List Char → Option Nat
  | [] => some 0
  | c :: cs =>
    if c.isDigit then (digitsVal cs).map (fun n => (c.toNat - 48) * 10 ^ cs.length + n)
    else none

/-- Parse a maximal run of digits from the head, returning its value and the rest. -/
def takeDigits (s : List Char) : Option (Nat × List Char) :=
  let ds := s.takeWhile Char.isDigit
  if ds = [] then none
  else (digitsVal ds).map (fun n => (n, s.dropWhile Char.isDigit))

/-- Translate a Python escape character (subset used in string literals). -/
def unescape (c : Char) : Char :=
  if c = 'n' then '\n'
  else if c = 't' then '\t'
  else if c = 'r' then '\r'
  else c

/-- Parse the body of a quoted string up to the closing quote `q`. -/
def parseStringBody (q : Char) : Nat → List Char → Option (List Char × List Char)
  | 0, _ => none
  | _, [] => none
  | fuel + 1, c :: rest =>
    if c = q then some ([], rest)
    else if c = '\\' then
      match rest with
      | [] => none
      | e :: rest2 =>
        (parseStringBody q fuel rest2).map (fun p => (unescape e :: p.1, p.2))
    else (parseStringBody q fuel rest).map (fun p => (c :: p.1, p.2))

mutual

/-- Recursive-descent model of `ast.literal_eval` over the subset of Python
literals the engine exchanges with the LLM: `None`, `True`, `False`, signed
integers, quoted strings, and (possibly nested) list displays with an optional
trailing comma.  Other literal forms (floats, dicts, tuples) are treated as
parse failures; no verified property depends on them. -/
def parseVal : Nat → List Char → Option (PyVal × List Char)
  | 0, _ => none
  | fuel + 1, s0 =>
    let s := skipWs s0
    match s with
    | [] => none
    | c :: rest =>
      if c = '[' then
        (parseItems fuel rest).map (fun p => (PyVal.vList p.1, p.2))
      else if c = '\'' || c = '"' then
        (parseStringBody c (rest.length + 1) rest).map (fun p => (PyVal.vStr p.1, p.2))
      else if startsWithL s (strL "None") then some (PyVal.vNone, s.drop 4)
      else if startsWithL s (strL "True") then some (PyVal.vBool true, s.drop 4)
      else if startsWithL s (strL "False") then some (PyVal.vBool false, s.drop 5)
      else if c = '-' then
        (takeDigits rest).map (fun p => (PyVal.vInt (-(p.1 : Int)), p.2))
      else if c = '+' then
        (takeDigits rest).map (fun p => (PyVal.vInt (p.1 : Int), p.2))
      else if c.isDigit then
        (takeDigits s).map (fun p => (PyVal.vInt (p.1 : Int), p.2))
      else none

/-- Parse the items of a list display after the opening `[` (or after a `,`). -/
def parseItems : Nat → List Char → Option (List PyVal × List Char)
  | 0, _ => none
  | fuel + 1, s0 =>
    let s := skipWs s0
    match s with
    | ']' :: rest => some ([], rest)
    | _ =>
      match parseVal fuel s with
      | none => none
      | some (v, r) =>
        let r := skipWs r
        match r with
        | ',' :: r2 =>
          (parseItems fuel r2).map (fun p => (v :: p.1, p.2))
        | ']' :: r2 => some ([v], r2)
        | _ => none

end

/-- Model of Python `ast.literal_eval` (restricted as documented at `parseVal`):
parse one literal and require only trailing whitespace after it. -/
def ast_literal_eval (s : List Char) : Except PyErr PyVal :=
  match parseVal (2 * s.length + 2) s with
  | some (v, rest) => if skipWs rest = [] then .ok v else .error .valueError
  | none => .error .valueError

/-- Embeds the `ChatResponse` class of `llm/base.py`: reply text and token count. -/
structure ChatResponse where
  content : List Char
  total_tokens : Nat
deriving DecidableEq, Repr

/-- Index of the first occurrence of `']'` (resp. `'}'`) in `s`, if any. -/
def findCharIdx (c : Char) : List Char → Option Nat
  | [] => none
  | a :: rest => if a = c then some 0 else (findCharIdx c rest).map (· + 1)

/-- Model of `re.findall(r"(\[.*?\]|\{.*?\})", s, re.DOTALL)`: scanning left to
right, at a `'['` the lazy match extends to the first following `']'` (likewise
for `'\x7b'`/`'\x7d'`); scanning resumes after each match. -/
def reFindallBracketsGo : Nat → List Char → List (List Char)
  | 0, _ => []
  | _, [] => []
  | fuel + 1, c :: rest =>
    if c = '[' then
      match findCharIdx ']' rest with
      | some j => ('[' :: rest.take (j + 1)) :: reFindallBracketsGo fuel (rest.drop (j + 1))
      | none => reFindallBracketsGo fuel rest
    else if c = '{' then
      match findCharIdx '}' rest with
      | some j => ('{' :: rest.take (j + 1)) :: reFindallBracketsGo fuel (rest.drop (j + 1))
      | none => reFindallBracketsGo fuel rest
    else reFindallBracketsGo fuel rest

/-- Entry point of the regex-scan model; the fuel `s.length + 1` is enough
since every step consumes at least one character. -/
def reFindallBrackets (s : List Char) : List (List Char) :=
  reFindallBracketsGo (s.length + 1) s

/-- Embeds `BaseLLM.literal_eval` (`llm/base.py`): strip whitespace, drop a
leading `<think>…</think>` span, peel a fenced code block, then attempt the
literal parse; on failure fall back to the single bracketed regex match. -/
def literal_eval (response_content : List Char) : Except PyErr PyVal :=
  let rc0 := pyStrip response_content
  let rc :=
    if containsSub rc0 (strL "<think>") && containsSub rc0 (strL "</think>") then
      rc0.drop (pyFind rc0 (strL "</think>") + 8).toNat
    else rc0
  let peeled : Except PyErr (List Char) :=
    if startsWithL rc (strL "```") && endsWithL rc (strL "```") then
      if startsWithL rc (strL "```python") then .ok (pySlice rc 9 3)
      else if startsWithL rc (strL "```json") then .ok (pySlice rc 7 3)
      else if startsWithL rc (strL "```str") then .ok (pySlice rc 6 3)
      else if startsWithL rc (strL "```\n") then .ok (pySlice rc 4 3)
      else .error .valueError
    else .ok rc
  let rcFinal := match peeled with | .ok p => p | .error _ => rc
  let attempt : Except PyErr PyVal :=
    match peeled with
    | .ok p => ast_literal_eval (pyStrip p)
    | .error e => .error e
  match attempt with
  | .ok v => .ok v
  | .error _ =>
    match reFindallBrackets rcFinal with
    | [m] => ast_literal_eval m
    | _ => .error .valueError

/-- Embeds the `RetrievalResult` class of `vector_db/base.py`.  The embedding
vector and the similarity score are carried as integers (no verified property
reads them); `metadata` is an association list. -/
structure RetrievalResult where
  embedding : List Int
  text : List Char
  reference : List Char
  metadata : List (List Char × List Char)
  score : Int
deriving DecidableEq, Repr

/-- The loop of `deduplicate_results`, with the `all_text_set` accumulator of
seen texts made explicit. -/
def deduplicate_go (seen : List (List Char)) : List RetrievalResult → List RetrievalResult
  | [] => []
  | r :: rest =>
    if r.text ∈ seen then deduplicate_go seen rest
    else r :: deduplicate_go (r.text :: seen) rest

/-- Embeds `deduplicate_results` (`vector_db/base.py`): keep the first
occurrence of each distinct `text`. -/
def deduplicate_results (results : List RetrievalResult) : List RetrievalResult :=
  deduplicate_go [] results

theorem deduplicate_go_sublist (seen : List (List Char)) (l : List RetrievalResult) :
    (deduplicate_go seen l).Sublist l := by
  induction l generalizing seen with
  | nil => simp [deduplicate_go]
  | cons r rest ih =>
    simp only [deduplicate_go]
    split
    · exact (ih seen).cons r
    · exact (ih _).cons₂ r

theorem mem_map_text_deduplicate_go (seen : List (List Char)) (l : List RetrievalResult)
    (t : List Char) :
    t ∈ (deduplicate_go seen l).map RetrievalResult.text ↔
      t ∉ seen ∧ t ∈ l.map RetrievalResult.text := by
  induction l generalizing seen with
  | nil => simp [deduplicate_go]
  | cons r rest ih =>
    simp only [deduplicate_go]
    split
    · rw [ih]
      simp only [List.map_cons, List.mem_cons]
      constructor
      · rintro ⟨hs, hm⟩; exact ⟨hs, Or.inr hm⟩
      · rintro ⟨hs, hm | hm⟩
        · subst hm; exact absurd (by assumption) hs
        · exact ⟨hs, hm⟩
    · simp only [List.map_cons, List.mem_cons, ih, List.mem_cons, not_or]
      constructor
      · rintro (rfl | ⟨⟨hne, hs⟩, hm⟩)
        · exact ⟨by assumption, Or.inl rfl⟩
        · exact ⟨hs, Or.inr hm⟩
      · rintro ⟨hs, rfl | hm⟩
        · exact Or.inl rfl
        · by_cases ht : t = r.text
          · exact Or.inl ht
          · exact Or.inr ⟨⟨ht, hs⟩, hm⟩

theorem nodup_map_text_deduplicate_go (seen : List (List Char)) (l : List RetrievalResult) :
    ((deduplicate_go seen l).map RetrievalResult.text).Nodup := by
  induction l generalizing seen with
  | nil => simp [deduplicate_go]
  | cons r rest ih =>
    simp only [deduplicate_go]
    split
    · exact ih seen
    · simp only [List.map_cons, List.nodup_cons]
      refine ⟨?_, ih _⟩
      rw [mem_map_text_deduplicate_go]
      simp

theorem find?_deduplicate_go (seen : List (List Char)) (l : List RetrievalResult)
    (r : RetrievalResult) (h : r ∈ deduplicate_go seen l) :
    r.text ∉ seen ∧ l.find? (fun x => decide (x.text = r.text)) = some r := by
  induction l generalizing seen with
  | nil => simp [deduplicate_go] at h
  | cons a rest ih =>
    simp only [deduplicate_go] at h
    split at h
    · obtain ⟨hs, hf⟩ := ih seen h
      have hne : a.text ≠ r.text := fun he => hs (he ▸ (by assumption))
      refine ⟨hs, ?_⟩
      rw [List.find?_cons_of_neg _ (by simpa using hne)]
      exact hf
    · rcases List.mem_cons.mp h with rfl | hm
      · refine ⟨by assumption, ?_⟩
        rw [List.find?_cons_of_pos _ (by simp)]
      · obtain ⟨hs, hf⟩ := ih _ hm
        simp only [List.mem_cons, not_or] at hs
        refine ⟨hs.2, ?_⟩
        rw [List.find?_cons_of_neg _ (by simpa using Ne.symm hs.1)]
        exact hf

theorem deduplicate_go_idem (seen : List (List Char)) (l : List RetrievalResult) :
    deduplicate_go seen (deduplicate_go seen l) = deduplicate_go seen l := by
  induction l generalizing seen with
  | nil => simp [deduplicate_go]
  | cons a rest ih =>
    simp only [deduplicate_go]
    split
    · exact ih seen
    · simp only [deduplicate_go]
      rw [if_neg (by assumption)]
      rw [ih]

/-- C1.  `deduplicate_results` keeps, for each distinct text in the input,
exactly the first result carrying that text, preserving first-seen order
(it is a sublist of the input with pairwise distinct texts covering exactly
the input's texts, and every kept result is what `find?` locates first), and
it is idempotent. -/
theorem deduplicate_results_correct (H : List RetrievalResult) :
    (deduplicate_results H).Sublist H ∧
    ((deduplicate_results H).map RetrievalResult.text).Nodup ∧
    (∀ t, t ∈ (deduplicate_results H).map RetrievalResult.text ↔
        t ∈ H.map RetrievalResult.text) ∧
    (∀ r ∈ deduplicate_results H,
        H.find? (fun x => decide (x.text = r.text)) = some r) ∧
    deduplicate_results (deduplicate_results H) = deduplicate_results H := by
  refine ⟨deduplicate_go_sublist [] H, nodup_map_text_deduplicate_go [] H, ?_, ?_, ?_⟩
  · intro t
    rw [deduplicate_results, mem_map_text_deduplicate_go]
    simp
  · intro r hr
    exact (find?_deduplicate_go [] H r hr).2
  · exact deduplicate_go_idem [] H

theorem startsWithL_iff (h n : List Char) :
    startsWithL h n = true ↔ ∃ t, h = n ++ t := by
  induction n generalizing h with
  | nil =>
    simp only [startsWithL, true_iff]
    exact ⟨h, rfl⟩
  | cons b bs ih =>
    cases h with
    | nil => simp [startsWithL]
    | cons a as =>
      simp only [startsWithL, Bool.and_eq_true, decide_eq_true_eq, ih, List.cons_append]
      constructor
      · rintro ⟨rfl, t, rfl⟩; exact ⟨t, rfl⟩
      · rintro ⟨t, he⟩
        rw [List.cons.injEq] at he
        exact ⟨he.1, t, he.2⟩

theorem containsSub_iff (h n : List Char) :
    containsSub h n = true ↔ ∃ a b, h = a ++ n ++ b := by
  induction h with
  | nil =>
    simp only [containsSub, Bool.or_eq_true, startsWithL_iff]
    constructor
    · rintro (⟨t, ht⟩ | hf)
      · exact ⟨[], t, by simpa using ht⟩
      · simp at hf
    · rintro ⟨a, b, he⟩
      rcases List.append_eq_nil.mp (List.append_eq_nil.mp he.symm).1 with ⟨rfl, rfl⟩
      exact Or.inl ⟨b, by simpa using he⟩
  | cons c t ih =>
    simp only [containsSub, Bool.or_eq_true, startsWithL_iff, ih]
    constructor
    · rintro (⟨tl, htl⟩ | ⟨a, b, rfl⟩)
      · exact ⟨[], tl, by simpa using htl⟩
      · exact ⟨c :: a, b, rfl⟩
    · rintro ⟨a, b, he⟩
      cases a with
      | nil => exact Or.inl ⟨b, by simpa using he⟩
      | cons x xs =>
        rw [List.cons_append, List.cons_append, List.cons.injEq] at he
        exact Or.inr ⟨xs, b, he.2⟩

/-- The substring-occurrence proposition (`needle` occurs inside `hay`),
the specification-level reading of Python `needle in hay`. -/
def OccursIn (needle hay : List Char) : Prop := ∃ a b, hay = a ++ needle ++ b

theorem containsSub_iff_occursIn (h n : List Char) :
    containsSub h n = true ↔ OccursIn n h := containsSub_iff h n

/-- Embeds the judge-reply normalization inside `_search_chunks_from_vectordb`
(`agent/deep_search.py`): strip whitespace, and when both `<think>` and
`</think>` occur, drop everything through the first `</think>` and strip
again. -/
def judge_normalize (content : List Char) : List Char :=
  let rc := pyStrip content
  if containsSub rc (strL "<think>") && containsSub rc (strL "</think>") then
    pyStrip (rc.drop (pyFind rc (strL "</think>") + 8).toNat)
  else rc

/-- Embeds the per-hit judging loop of `_search_chunks_from_vectordb` over the
hits returned for one collection: the judge LLM is the oracle `judgeReply`;
returns the accepted hits in order plus the judge token total. -/
def judge_hits (judgeReply : RetrievalResult → ChatResponse) :
    List RetrievalResult → List RetrievalResult × Nat
  | [] => ([], 0)
  | r :: rest =>
    let resp := judgeReply r
    let rc := judge_normalize resp.content
    let prev := judge_hits judgeReply rest
    if containsSub rc (strL "YES") && !(containsSub rc (strL "NO")) then
      (r :: prev.1, resp.total_tokens + prev.2)
    else (prev.1, resp.total_tokens + prev.2)

theorem judge_hits_fst (judgeReply : RetrievalResult → ChatResponse)
    (hits : List RetrievalResult) :
    (judge_hits judgeReply hits).1 = hits.filter (fun r =>
      containsSub (judge_normalize (judgeReply r).content) (strL "YES") &&
        !(containsSub (judge_normalize (judgeReply r).content) (strL "NO"))) := by
  induction hits with
  | nil => simp [judge_hits]
  | cons a rest ih =>
    simp only [judge_hits, List.filter_cons]
    split
    · simp [ih]
    · simp [ih]

/-- C2.  In the per-hit judging of the Deep Searcher, a retrieved hit is added
to the accepted results iff its judge reply, once normalized (whitespace and
`<think>…</think>` stripped), contains the substring `YES` and does not
contain the substring `NO`. -/
theorem judge_accept_iff (judgeReply : RetrievalResult → ChatResponse)
    (hits : List RetrievalResult) (r : RetrievalResult) :
    r ∈ (judge_hits judgeReply hits).1 ↔
      r ∈ hits ∧ OccursIn (strL "YES") (judge_normalize (judgeReply r).content) ∧
        ¬ OccursIn (strL "NO") (judge_normalize (judgeReply r).content) := by
  rw [judge_hits_fst, List.mem_filter]
  simp only [Bool.and_eq_true, Bool.not_eq_true']
  constructor
  · rintro ⟨hm, h1, h2⟩
    refine ⟨hm, (containsSub_iff_occursIn _ _).mp h1, fun ho => ?_⟩
    have := (containsSub_iff_occursIn _ _).mpr ho
    rw [h2] at this
    cases this
  · rintro ⟨hm, h1, h2⟩
    refine ⟨hm, (containsSub_iff_occursIn _ _).mpr h1, ?_⟩
    cases hb : containsSub (judge_normalize (judgeReply r).content) (strL "NO")
    · rfl
    · exact absurd ((containsSub_iff_occursIn _ _).mp hb) h2

/-- Python truthiness (`if not x`) on the literal values the engine handles. -/
def pyFalsy : PyVal → Bool
  | .vNone => true
  | .vBool b => !b
  | .vInt n => n = 0
  | .vStr s => s = []
  | .vList l => l = []

/-- Python iteration over a literal (as used by `list.extend` and the
per-query fan-out): lists yield their items, strings their characters; other
values raise `TypeError`. -/
def pyElems : PyVal → Except PyErr (List PyVal)
  | .vList xs => .ok xs
  | .vStr s => .ok (s.map (fun c => PyVal.vStr [c]))
  | _ => .error .typeError

/-- Result of `DeepSearch.async_retrieve`: retrieved hits, token total, the
accumulated sub-queries, and (ghost field) the number of executed search
iterations. -/
structure RetrieveOutput where
  results : List RetrievalResult
  total_tokens : Nat
  all_sub_queries : List PyVal
  iterations : Nat
deriving Repr

/-- Embeds the `for iter in range(max_iter)` loop of
`DeepSearch.async_retrieve` (`agent/deep_search.py`).  `remaining` is the
number of loop indices left (`max_iter - iter`); `searchIter` is the oracle
giving the merged fan-out search results (and their token cost) for the
active queries of an iteration; `reflectReply` is the reflection LLM reply
for an iteration.  Returns accumulated results, token total, accumulated
sub-queries, and the number of iterations executed. -/
def ds_loop (searchIter : Nat → List PyVal → List RetrievalResult × Nat)
    (reflectReply : Nat → ChatResponse) :
    Nat → Nat → List PyVal → List RetrievalResult → List PyVal → Nat →
      Except PyErr (List RetrievalResult × Nat × List PyVal × Nat)
  | 0, _, _, allRes, allSubQs, total => .ok (allRes, total, allSubQs, 0)
  | remaining + 1, iter, gapQs, allRes, allSubQs, total =>
    let sr := searchIter iter gapQs
    let allRes2 := allRes ++ deduplicate_results sr.1
    let total2 := total + sr.2
    if remaining = 0 then .ok (allRes2, total2, allSubQs, 1)
    else
      match literal_eval (reflectReply iter).content with
      | .error e => .error e
      | .ok gap =>
        let total3 := total2 + (reflectReply iter).total_tokens
        if pyFalsy gap then .ok (allRes2, total3, allSubQs, 1)
        else
          match pyElems gap with
          | .error e => .error e
          | .ok elems =>
            match ds_loop searchIter reflectReply remaining (iter + 1) elems allRes2
                (allSubQs ++ elems) total3 with
            | .error e => .error e
            | .ok (res, tot, qs, n) => .ok (res, tot, qs, n + 1)

/-- Embeds `DeepSearch.async_retrieve` (`agent/deep_search.py`): generate
sub-queries from `subQueryReply`, run the bounded iteration loop, and
finally deduplicate.  The empty dict returned on the falsy-subqueries early
exit is modelled by an empty `all_sub_queries` list. -/
def async_retrieve (subQueryReply : ChatResponse)
    (searchIter : Nat → List PyVal → List RetrievalResult × Nat)
    (reflectReply : Nat → ChatResponse) (max_iter : Nat) :
    Except PyErr RetrieveOutput :=
  match literal_eval subQueryReply.content with
  | .error e => .error e
  | .ok v =>
    let total := subQueryReply.total_tokens
    if pyFalsy v then .ok ⟨[], total, [], 0⟩
    else
      match pyElems v with
      | .error e => .error e
      | .ok subQs =>
        match ds_loop searchIter reflectReply max_iter 0 subQs [] subQs total with
        | .error e => .error e
        | .ok (res, tot, qs, n) => .ok ⟨deduplicate_results res, tot, qs, n⟩

theorem ds_loop_iter_bound (searchIter : Nat → List PyVal → List RetrievalResult × Nat)
    (reflectReply : Nat → ChatResponse) :
    ∀ remaining iter gapQs allRes allSubQs total out,
      ds_loop searchIter reflectReply remaining iter gapQs allRes allSubQs total = .ok out →
      out.2.2.2 ≤ remaining := by
  intro remaining
  induction remaining with
  | zero =>
    intro iter gapQs allRes allSubQs total out h
    simp only [ds_loop] at h
    cases h
    simp
  | succ m ih =>
    intro iter gapQs allRes allSubQs total out h
    simp only [ds_loop] at h
    split at h
    · cases h; simp
    · split at h
      · exact absurd h (by simp)
      · split at h
        · cases h; simp
        · split at h
          · exact absurd h (by simp)
          · split at h
            · exact absurd h (by simp)
            · rename_i res tot qs n heq
              cases h
              have := ih _ _ _ _ _ _ heq
              simpa using Nat.succ_le_succ this

/-- C3.  For every sub-query reply, search oracle, reflection oracle and
`max_iter ≥ 1`, a successful `async_retrieve` executes at most `max_iter`
search iterations, no matter what gap queries reflection keeps producing. -/
theorem async_retrieve_iter_bound (subQueryReply : ChatResponse)
    (searchIter : Nat → List PyVal → List RetrievalResult × Nat)
    (reflectReply : Nat → ChatResponse) (max_iter : Nat) (_hmi : 1 ≤ max_iter)
    (out : RetrieveOutput)
    (hok : async_retrieve subQueryReply searchIter reflectReply max_iter = .ok out) :
    out.iterations ≤ max_iter := by
  simp only [async_retrieve] at hok
  split at hok
  · exact absurd hok (by simp)
  · split at hok
    · cases hok; exact Nat.zero_le _
    · split at hok
      · exact absurd hok (by simp)
      · split at hok
        · exact absurd hok (by simp)
        · rename_i res tot qs n heq
          cases hok
          exact ds_loop_iter_bound searchIter reflectReply _ _ _ _ _ _ _ heq

/-- Witness for C3: a concrete run with `max_iter = 2` whose reflection oracle
always produces a fresh gap query still executes only 2 iterations. -/
theorem async_retrieve_iter_bound_witness :
    ∃ out, async_retrieve ⟨strL "['a','b']", 3⟩ (fun _ _ => ([], 2))
        (fun _ => ⟨strL "['c']", 4⟩) 2 = .ok out ∧ out.iterations ≤ 2 := by
  have hok : async_retrieve ⟨strL "['a','b']", 3⟩ (fun _ _ => ([], 2))
      (fun _ => ⟨strL "['c']", 4⟩) 2 =
      .ok ⟨[], 11, [.vStr ['a'], .vStr ['b'], .vStr ['c']], 2⟩ := by rfl
  exact ⟨_, hok, async_retrieve_iter_bound _ _ _ 2 (by norm_num) _ hok⟩

/-- C7 counterexample: on a sub-query reply that cannot be coerced into a
list, `async_retrieve` does not return an empty result with the accumulated
tokens — the `ValueError` raised by `literal_eval` escapes to the caller. -/
theorem async_retrieve_parse_error_escapes :
    literal_eval (strL "I cannot break this down.") = .error .valueError ∧
    async_retrieve ⟨strL "I cannot break this down.", 5⟩ (fun _ _ => ([], 0))
      (fun _ => ⟨strL "[]", 0⟩) 3 = .error .valueError := by
  exact ⟨by rfl, by rfl⟩

/-- C7 (amended).  In sub-query generation, a reply that parses to a falsy
value (such as the empty list) aborts retrieval with an empty result and the
tokens accumulated so far; a reply that fails to parse makes `async_retrieve`
raise: the `ValueError` from `literal_eval` propagates to the caller instead
of being converted into an empty result. -/
theorem async_retrieve_subquery_parse (subQueryReply : ChatResponse)
    (searchIter : Nat → List PyVal → List RetrievalResult × Nat)
    (reflectReply : Nat → ChatResponse) (max_iter : Nat) :
    (∀ e, literal_eval subQueryReply.content = .error e →
        async_retrieve subQueryReply searchIter reflectReply max_iter = .error e) ∧
    (∀ v, literal_eval subQueryReply.content = .ok v → pyFalsy v = true →
        async_retrieve subQueryReply searchIter reflectReply max_iter =
          .ok ⟨[], subQueryReply.total_tokens, [], 0⟩) := by
  constructor
  · intro e he
    simp only [async_retrieve, he]
  · intro v hv hf
    simp only [async_retrieve, hv, hf, if_pos]

/-- Witness for C7 (amended), exercising both branches on concrete replies. -/
theorem async_retrieve_subquery_parse_witness :
    async_retrieve ⟨strL "no list in sight.", 7⟩ (fun _ _ => ([], 0))
        (fun _ => ⟨strL "[]", 0⟩) 3 = .error .valueError ∧
    async_retrieve ⟨strL "[]", 7⟩ (fun _ _ => ([], 0))
        (fun _ => ⟨strL "[]", 0⟩) 3 = .ok ⟨[], 7, [], 0⟩ := by
  constructor
  · exact (async_retrieve_subquery_parse ⟨strL "no list in sight.", 7⟩
      (fun _ _ => ([], 0)) (fun _ => ⟨strL "[]", 0⟩) 3).1 .valueError (by rfl)
  · exact (async_retrieve_subquery_parse ⟨strL "[]", 7⟩
      (fun _ _ => ([], 0)) (fun _ => ⟨strL "[]", 0⟩) 3).2 (.vList []) (by rfl) (by rfl)

/-- Embeds the `CollectionInfo` class of `vector_db/base.py`. -/
structure CollectionInfo where
  collection_name : List Char
  description : List Char
deriving DecidableEq, Repr

/-- Fuel-driven dedup keeping first occurrences; models `list(set(...))` up to
order (membership-equivalent; no verified property depends on the order of
the routed list). -/
def dedupKeepFirstGo : Nat → List PyVal → List PyVal
  | 0, _ => []
  | _, [] => []
  | fuel + 1, x :: xs =>
    x :: dedupKeepFirstGo fuel (xs.filter (fun y => decide (y ≠ x)))

/-- Order-normalizing model of Python `list(set(l))`. -/
def dedupKeepFirst (l : List PyVal) : List PyVal :=
  dedupKeepFirstGo l.length l

theorem mem_dedupKeepFirstGo :
    ∀ (fuel : Nat) (l : List PyVal), l.length ≤ fuel →
      ∀ a, a ∈ dedupKeepFirstGo fuel l ↔ a ∈ l := by
  intro fuel
  induction fuel with
  | zero =>
    intro l hl a
    rw [Nat.le_zero, List.length_eq_zero] at hl
    subst hl
    simp [dedupKeepFirstGo]
  | succ m ih =>
    intro l hl a
    cases l with
    | nil => simp [dedupKeepFirstGo]
    | cons x xs =>
      simp only [dedupKeepFirstGo, List.mem_cons]
      have hlen : (xs.filter (fun y => decide (y ≠ x))).length ≤ m := by
        have := List.length_filter_le (fun y => decide (y ≠ x)) xs
        simp only [List.length_cons, Nat.succ_le_succ_iff] at hl
        omega
      rw [ih _ hlen a, List.mem_filter]
      constructor
      · rintro (rfl | ⟨hm, _⟩)
        · exact Or.inl rfl
        · exact Or.inr hm
      · rintro (rfl | hm)
        · exact Or.inl rfl
        · by_cases hax : a = x
          · exact Or.inl hax
          · exact Or.inr ⟨hm, by simpa using hax⟩

theorem mem_dedupKeepFirst (l : List PyVal) (a : PyVal) :
    a ∈ dedupKeepFirst l ↔ a ∈ l :=
  mem_dedupKeepFirstGo l.length l (Nat.le_refl _) a

/-- One step of the union loop at the end of `CollectionRouter.invoke`: add
the collection when its description is empty, and add it (again) when it is
the vector store's default collection. -/
def routeUnionStep (default_collection : List Char) (acc : List PyVal)
    (info : CollectionInfo) : List PyVal :=
  let acc2 :=
    if info.description = [] then acc ++ [PyVal.vStr info.collection_name] else acc
  if default_collection = info.collection_name then
    acc2 ++ [PyVal.vStr info.collection_name]
  else acc2

/-- Embeds `CollectionRouter.invoke` (`agent/collection_router.py`):
no collection → `([], 0)` without an LLM call; exactly one collection → that
name with `0` tokens and no LLM call; otherwise parse the routing LLM reply
(the oracle `chatReply`) as a list, run the union loop, and dedup.  The
third result component records whether the LLM was called.  A reply parsing
to a non-list value makes the following `.append` calls (or the `list(set())`
iteration) fail in Python in all but degenerate cases; it is modelled
uniformly as an error, and no verified property depends on that branch. -/
def CollectionRouter.invoke (default_collection : List Char)
    (collection_infos : List CollectionInfo) (chatReply : ChatResponse) :
    Except PyErr (List PyVal × Nat × Bool) :=
  match collection_infos with
  | [] => .ok ([], 0, false)
  | [info] => .ok ([.vStr info.collection_name], 0, false)
  | _ =>
    match literal_eval chatReply.content with
    | .error e => .error e
    | .ok (.vList xs) =>
      let selected := collection_infos.foldl (routeUnionStep default_collection) xs
      .ok (dedupKeepFirst selected, chatReply.total_tokens, true)
    | .ok _ => .error .attributeError

theorem mem_foldl_routeUnionStep (default_collection : List Char) :
    ∀ (infos : List CollectionInfo) (acc : List PyVal) (z : PyVal), z ∈ acc →
      z ∈ infos.foldl (routeUnionStep default_collection) acc := by
  intro infos
  induction infos with
  | nil => intro acc z hz; simpa using hz
  | cons a rest ih =>
    intro acc z hz
    simp only [List.foldl_cons]
    apply ih
    unfold routeUnionStep
    split
    · split <;> simp [hz]
    · split <;> simp [hz]

theorem routeUnionStep_adds (default_collection : List Char) :
    ∀ (infos : List CollectionInfo) (acc : List PyVal) (info : CollectionInfo),
      info ∈ infos →
      (info.description = [] →
        PyVal.vStr info.collection_name ∈
          infos.foldl (routeUnionStep default_collection) acc) ∧
      (info.collection_name = default_collection →
        PyVal.vStr info.collection_name ∈
          infos.foldl (routeUnionStep default_collection) acc) := by
  intro infos
  induction infos with
  | nil => intro acc info h; simp at h
  | cons a rest ih =>
    intro acc info h
    rcases List.mem_cons.mp h with rfl | hm
    · constructor
      · intro hdesc
        simp only [List.foldl_cons]
        apply mem_foldl_routeUnionStep
        unfold routeUnionStep
        rw [if_pos hdesc]
        split <;> simp
      · intro hdef
        simp only [List.foldl_cons]
        apply mem_foldl_routeUnionStep
        unfold routeUnionStep
        rw [if_pos hdef.symm]
        simp
    · simpa only [List.foldl_cons] using ih _ info hm

/-- C5.  With at least two dimension-filtered collections and a routing reply
that parses as a list, `invoke` succeeds with the reply's token count, the
LLM having been called, and its result includes every filtered collection
with an empty description and every filtered collection equal to the vector
store's default collection. -/
theorem invoke_union_includes (default_collection : List Char)
    (infos : List CollectionInfo) (chatReply : ChatResponse) (xs : List PyVal)
    (hlen : 2 ≤ infos.length)
    (hparse : literal_eval chatReply.content = .ok (.vList xs)) :
    ∃ sel, CollectionRouter.invoke default_collection infos chatReply =
        .ok (sel, chatReply.total_tokens, true) ∧
      (∀ info ∈ infos, info.description = [] →
          PyVal.vStr info.collection_name ∈ sel) ∧
      (∀ info ∈ infos, info.collection_name = default_collection →
          PyVal.vStr info.collection_name ∈ sel) := by
  match infos, hlen with
  | a :: b :: rest, _ =>
    refine ⟨dedupKeepFirst ((a :: b :: rest).foldl (routeUnionStep default_collection) xs),
      ?_, ?_, ?_⟩
    · unfold CollectionRouter.invoke
      rw [hparse]
    · intro info hm hdesc
      rw [mem_dedupKeepFirst]
      exact (routeUnionStep_adds default_collection (a :: b :: rest) xs info hm).1 hdesc
    · intro info hm hdef
      rw [mem_dedupKeepFirst]
      exact (routeUnionStep_adds default_collection (a :: b :: rest) xs info hm).2 hdef

/-- Witness for C5 on the seed scenario: collections `books` (default, with a
description) and `science` (empty description), LLM reply `['science']`. -/
theorem invoke_union_includes_witness :
    ∃ sel, CollectionRouter.invoke (strL "books")
        [⟨strL "books", strL "b"⟩, ⟨strL "science", strL ""⟩] ⟨strL "['science']", 5⟩ =
        .ok (sel, 5, true) ∧
      (∀ info ∈ [(⟨strL "books", strL "b"⟩ : CollectionInfo), ⟨strL "science", strL ""⟩],
          info.description = [] → PyVal.vStr info.collection_name ∈ sel) ∧
      (∀ info ∈ [(⟨strL "books", strL "b"⟩ : CollectionInfo), ⟨strL "science", strL ""⟩],
          info.collection_name = strL "books" → PyVal.vStr info.collection_name ∈ sel) :=
  invoke_union_includes (strL "books")
    [⟨strL "books", strL "b"⟩, ⟨strL "science", strL ""⟩] ⟨strL "['science']", 5⟩
    [PyVal.vStr (strL "science")] (by norm_num) (by rfl)

/-- C6.  With exactly one collection visible to the dimension filter,
`invoke` returns that collection's name with zero tokens and no LLM call. -/
theorem invoke_single_collection (default_collection : List Char)
    (info : CollectionInfo) (chatReply : ChatResponse) :
    CollectionRouter.invoke default_collection [info] chatReply =
      .ok ([.vStr info.collection_name], 0, false) := rfl

/-- C4 counterexample.  First: the store holds one collection `a` and the
default collection name `deepsearcher` is defined, yet the routed result does
not contain the default — it is only unioned in when it appears among the
dimension-filtered collections.  Second: with two described collections, the
default absent from both, and the LLM replying `[]`, the routed result is
empty, refuting non-emptiness as well. -/
theorem invoke_default_not_unioned :
    (CollectionRouter.invoke (strL "deepsearcher") [⟨strL "a", strL "da"⟩]
        ⟨strL "[]", 5⟩ = .ok ([.vStr (strL "a")], 0, false) ∧
      PyVal.vStr (strL "deepsearcher") ∉ [PyVal.vStr (strL "a")]) ∧
    CollectionRouter.invoke (strL "deepsearcher")
        [⟨strL "a", strL "da"⟩, ⟨strL "b", strL "db"⟩] ⟨strL "[]", 5⟩ =
      .ok ([], 5, true) :=
  ⟨⟨rfl, by decide⟩, rfl⟩

/-- C4 (amended).  Whenever the vector store lists at least one collection
and the default collection is among the listed collections (and, when two or
more are listed, the routing reply parses as a list), `invoke` returns a
non-empty list that contains the default collection. -/
theorem invoke_default_in_result (default_collection : List Char)
    (infos : List CollectionInfo) (chatReply : ChatResponse)
    (hne : infos ≠ [])
    (hdef : default_collection ∈ infos.map CollectionInfo.collection_name)
    (hparse : 2 ≤ infos.length →
      ∃ xs, literal_eval chatReply.content = .ok (.vList xs)) :
    ∃ sel tok called, CollectionRouter.invoke default_collection infos chatReply =
        .ok (sel, tok, called) ∧ sel ≠ [] ∧ PyVal.vStr default_collection ∈ sel := by
  match infos, hne with
  | [info], _ =>
    simp only [List.map_cons, List.map_nil, List.mem_cons, List.not_mem_nil,
      or_false] at hdef
    subst hdef
    exact ⟨_, _, _, invoke_single_collection _ info chatReply, by simp, by simp⟩
  | a :: b :: rest, _ =>
    obtain ⟨xs, hx⟩ := hparse (by simp only [List.length_cons]; omega)
    obtain ⟨sel, hs, _, hdefmem⟩ :=
      invoke_union_includes default_collection (a :: b :: rest) chatReply xs
        (by simp only [List.length_cons]; omega) hx
    rw [List.mem_map] at hdef
    obtain ⟨info, hinfo, hname⟩ := hdef
    have hmem := hdefmem info hinfo hname
    rw [hname] at hmem
    exact ⟨sel, chatReply.total_tokens, true, hs, fun hnil => by simp [hnil] at hmem, hmem⟩

/-- Witness for C4 (amended): default `books` among two listed collections,
reply `['science']`. -/
theorem invoke_default_in_result_witness :
    ∃ sel tok called, CollectionRouter.invoke (strL "books")
        [⟨strL "books", strL "b"⟩, ⟨strL "science", strL "s"⟩] ⟨strL "['science']", 5⟩ =
        .ok (sel, tok, called) ∧ sel ≠ [] ∧ PyVal.vStr (strL "books") ∈ sel :=
  invoke_default_in_result (strL "books")
    [⟨strL "books", strL "b"⟩, ⟨strL "science", strL "s"⟩] ⟨strL "['science']", 5⟩
    (by decide) (by decide) (fun _ => ⟨[PyVal.vStr (strL "science")], by rfl⟩)

/-- Digit-run value requiring at least one digit (`int("")` raises). -/
def allDigitsVal (ds : List Char) : Option Nat :=
  if ds = [] then none else digitsVal ds

/-- Model of Python `int(str)` on reply strings: surrounding whitespace, an
optional sign, then one or more ASCII digits.  Numeric underscores and
non-ASCII digits are not modelled; no verified property depends on them. -/
def pyIntParse (s : List Char) : Option Int :=
  match pyStrip s with
  | '-' :: ds => (allDigitsVal ds).map (fun n => -(n : Int))
  | '+' :: ds => (allDigitsVal ds).map (fun n => (n : Int))
  | ds => (allDigitsVal ds).map (fun n => (n : Int))

/-- Embeds `RAGRouter.find_last_digit` (`agent/rag_router.py`): the first
digit of the reversed reply, `ValueError` when there is none.  (`Char.isDigit`
models Python `str.isdigit` on the ASCII digits.) -/
def find_last_digit (s : List Char) : Except PyErr Char :=
  match s.reverse.find? Char.isDigit with
  | some c => .ok c
  | none => .error .valueError

/-- Normalization of a Python index: negative indices count from the end. -/
def pyNorm (len : Nat) (i : Int) : Int :=
  if i < 0 then i + (len : Int) else i

/-- Python list indexing: negative indices count from the end; `IndexError`
outside `[-len, len)`. -/
def pyIndex {α : Type} (l : List α) (i : Int) : Except PyErr α :=
  if hj : 0 ≤ pyNorm l.length i ∧ pyNorm l.length i < (l.length : Int) then
    .ok (l.get ⟨(pyNorm l.length i).toNat, by omega⟩)
  else .error .indexError

/-- Embeds `RAGRouter._route` (`agent/rag_router.py`) over a registry of agent
names: parse the whole routing reply as an integer minus one; when that fails,
fall back to the reply's last decimal digit minus one; then index the registry
with Python semantics and return the selected agent with the reply's token
count. -/
def RAGRouter.route (rag_agents : List (List Char)) (chatReply : ChatResponse) :
    Except PyErr (List Char × Nat) :=
  let idxE : Except PyErr Int :=
    match pyIntParse chatReply.content with
    | some n => .ok (n - 1)
    | none =>
      match find_last_digit chatReply.content with
      | .ok c => .ok ((c.toNat : Int) - 48 - 1)
      | .error e => .error e
  match idxE with
  | .error e => .error e
  | .ok idx =>
    match pyIndex rag_agents idx with
    | .error e => .error e
    | .ok agent => .ok (agent, chatReply.total_tokens)

theorem pyIndex_ok_iff {α : Type} (l : List α) (i : Int) :
    (∃ a, pyIndex l i = .ok a) ↔
      -(l.length : Int) ≤ i ∧ i < (l.length : Int) := by
  unfold pyIndex
  split
  · rename_i hj
    constructor
    · intro _
      unfold pyNorm at hj
      by_cases hi : i < 0 <;> simp only [hi, if_true, if_false] at hj <;> omega
    · intro _
      exact ⟨_, rfl⟩
  · rename_i hj
    constructor
    · rintro ⟨a, ha⟩
      simp at ha
    · intro hr
      exfalso
      apply hj
      unfold pyNorm
      by_cases hi : i < 0 <;> simp only [hi, if_true, if_false] <;> omega

/-- C8 counterexample: reply `"5"` contains a digit, yet `_route` over a
single-agent registry raises `IndexError` (index 4 is out of range), so
"raises only when the reply contains no digit" fails. -/
theorem route_raises_despite_digit :
    RAGRouter.route [strL "naive"] ⟨strL "5", 2⟩ = .error .indexError ∧
    (strL "5").any Char.isDigit = true := ⟨rfl, rfl⟩

/-- C8 (amended).  `_route` selects the agent at index `int(reply) - 1` when
the whole reply parses as an integer, otherwise at index `d - 1` for the last
decimal digit `d` of the reply, both with Python (negative-inclusive) list
indexing; it raises exactly when the reply has no integer parse and no digit
(`ValueError`) or when the computed index falls outside the registry's valid
range `[-len, len)` (`IndexError`, stated via the indexing characterization
in the last conjunct). -/
theorem route_characterization (rag_agents : List (List Char))
    (chatReply : ChatResponse) :
    (∀ n, pyIntParse chatReply.content = some n →
        RAGRouter.route rag_agents chatReply =
          (pyIndex rag_agents (n - 1)).map (fun a => (a, chatReply.total_tokens))) ∧
    (pyIntParse chatReply.content = none → ∀ c,
        chatReply.content.reverse.find? Char.isDigit = some c →
        RAGRouter.route rag_agents chatReply =
          (pyIndex rag_agents ((c.toNat : Int) - 48 - 1)).map
            (fun a => (a, chatReply.total_tokens))) ∧
    (pyIntParse chatReply.content = none →
        chatReply.content.reverse.find? Char.isDigit = none →
        RAGRouter.route rag_agents chatReply = .error .valueError) ∧
    (∀ i : Int, (∃ a, pyIndex rag_agents i = .ok a) ↔
        -(rag_agents.length : Int) ≤ i ∧ i < (rag_agents.length : Int)) := by
  refine ⟨?_, ?_, ?_, fun i => pyIndex_ok_iff rag_agents i⟩
  · intro n hn
    unfold RAGRouter.route
    rw [hn]
    cases h : pyIndex rag_agents (n - 1) <;> simp [h, Except.map]
  · intro hn c hc
    unfold RAGRouter.route find_last_digit
    rw [hn, hc]
    cases h : pyIndex rag_agents ((c.toNat : Int) - 48 - 1) <;> simp [h, Except.map]
  · intro hn hc
    unfold RAGRouter.route find_last_digit
    rw [hn, hc]

/-- Witness for C8 (amended): reply `"2"` over a two-agent registry resolves
through the integer branch to the second agent. -/
theorem route_characterization_witness :
    RAGRouter.route [strL "deep", strL "chain"] ⟨strL "2", 3⟩ =
      (pyIndex [strL "deep", strL "chain"] 1).map (fun a => (a, 3)) :=
  (route_characterization [strL "deep", strL "chain"] ⟨strL "2", 3⟩).1 2 (by rfl)

/-- C10.  When the integer parse of the routing reply fails and its last
decimal digit is `'0'`, `_route` computes internal index `-1` and returns the
registry's last agent (Python negative indexing) for every non-empty
registry. -/
theorem route_last_digit_zero (rag_agents : List (List Char))
    (chatReply : ChatResponse) (a : List Char)
    (hint : pyIntParse chatReply.content = none)
    (hdig : chatReply.content.reverse.find? Char.isDigit = some '0')
    (hlast : rag_agents.getLast? = some a) :
    RAGRouter.route rag_agents chatReply = .ok (a, chatReply.total_tokens) := by
  have hne : rag_agents ≠ [] := by
    intro h
    rw [h] at hlast
    simp at hlast
  have hlen : 1 ≤ rag_agents.length := by
    cases rag_agents with
    | nil => exact absurd rfl hne
    | cons x xs => simp
  have hidx : ((('0' : Char).toNat : Int) - 48 - 1) = -1 := by decide
  have h2 := (route_characterization rag_agents chatReply).2.1 hint '0' hdig
  rw [h2, hidx]
  unfold pyIndex
  have hnorm : pyNorm rag_agents.length (-1) = (rag_agents.length : Int) - 1 := by
    unfold pyNorm
    rw [if_pos (by omega : (-1 : Int) < 0)]
    omega
  have hcond : (0 : Int) ≤ pyNorm rag_agents.length (-1) ∧
      pyNorm rag_agents.length (-1) < (rag_agents.length : Int) := by
    rw [hnorm]
    omega
  rw [dif_pos hcond]
  have htn : (pyNorm rag_agents.length (-1)).toNat = rag_agents.length - 1 := by
    rw [hnorm]
    omega
  have hgl := List.getLast?_eq_getElem? rag_agents
  rw [hlast, List.getElem?_eq_getElem (l := rag_agents)
    (n := rag_agents.length - 1) (by omega)] at hgl
  have ha : rag_agents[rag_agents.length - 1] = a := by
    injection hgl with h
    exact h.symm
  simp only [Except.map, Except.ok.injEq, Prod.mk.injEq]
  refine ⟨?_, trivial⟩
  have hfin : (⟨(pyNorm rag_agents.length (-1)).toNat, by omega⟩ :
      Fin rag_agents.length) = ⟨rag_agents.length - 1, by omega⟩ := by
    apply Fin.ext
    exact htn
  rw [hfin]
  simp only [List.get_eq_getElem]
  exact ha

/-- Witness for C10: reply `"pick 0"` (no integer parse, last digit `0`) over
a two-agent registry returns the second (last) agent. -/
theorem route_last_digit_zero_witness :
    RAGRouter.route [strL "deep", strL "chain"] ⟨strL "pick 0", 4⟩ =
      .ok (strL "chain", 4) :=
  route_last_digit_zero [strL "deep", strL "chain"] ⟨strL "pick 0", 4⟩
    (strL "chain") (by rfl) (by rfl) (by rfl)

/-- The part of a constructed `CollectionRouter` that `NaiveRAG` reads: the
collection names listed at construction time. -/
structure CollectionRouterState where
  all_collections : List (List Char)
deriving Repr

/-- Embeds the attributes set by `NaiveRAG.__init__` (`agent/naive_rag.py`):
the `collection_router` attribute is created only when `route_collection` is
true; a Python attribute that was never created is modelled as `none`. -/
structure NaiveRAGAgent where
  top_k : Nat
  route_collection : Bool
  collection_router : Option CollectionRouterState
  text_window_splitter : Bool
deriving Repr

/-- Embeds `NaiveRAG.__init__`; `router` is the `CollectionRouter` the
constructor would build when routing is enabled. -/
def NaiveRAG.init (top_k : Nat) (route_collection : Bool)
    (text_window_splitter : Bool) (router : CollectionRouterState) :
    NaiveRAGAgent :=
  { top_k := top_k
    route_collection := route_collection
    collection_router := if route_collection then some router else none
    text_window_splitter := text_window_splitter }

/-- Embeds `NaiveRAG.retrieve`: pick the collections (router invocation when
routing is enabled, else the router's construction-time collection list —
both reads of `self.collection_router`, raising `AttributeError` when it was
never created), search each collection at `max(top_k // len, 1)`, and
deduplicate.  `routerInvoke` and `search` are the LLM/vector-store oracles. -/
def NaiveRAG.retrieve (ag : NaiveRAGAgent)
    (routerInvoke : CollectionRouterState → List (List Char) × Nat)
    (search : List Char → Nat → List RetrievalResult) :
    Except PyErr (List RetrievalResult × Nat) :=
  let sel : Except PyErr (List (List Char) × Nat) :=
    if ag.route_collection then
      match ag.collection_router with
      | some r => .ok (routerInvoke r)
      | none => .error .attributeError
    else
      match ag.collection_router with
      | some r => .ok (r.all_collections, 0)
      | none => .error .attributeError
  match sel with
  | .error e => .error e
  | .ok (cols, ntok) =>
    let results := cols.foldl
      (fun acc c => acc ++ search c (max (ag.top_k / cols.length) 1)) []
    .ok (deduplicate_results results, ntok)

/-- Embeds `NaiveRAG.query`: retrieve, then summarize with one LLM call
(oracle `summaryReply`); retrieval exceptions propagate. -/
def NaiveRAG.query (ag : NaiveRAGAgent)
    (routerInvoke : CollectionRouterState → List (List Char) × Nat)
    (search : List Char → Nat → List RetrievalResult)
    (summaryReply : ChatResponse) :
    Except PyErr (List Char × List RetrievalResult × Nat) :=
  match NaiveRAG.retrieve ag routerInvoke search with
  | .error e => .error e
  | .ok (res, ntok) =>
    .ok (summaryReply.content, res, ntok + summaryReply.total_tokens)

/-- C9.  A `NaiveRAG` agent constructed with `route_collection = False` has no
`collection_router` attribute, yet the non-routing branch of `retrieve` reads
it, so every `retrieve` (and hence every `query`) raises `AttributeError`. -/
theorem naive_rag_no_router_attribute_error (top_k : Nat) (tws : Bool)
    (router : CollectionRouterState)
    (routerInvoke : CollectionRouterState → List (List Char) × Nat)
    (search : List Char → Nat → List RetrievalResult)
    (summaryReply : ChatResponse) :
    NaiveRAG.retrieve (NaiveRAG.init top_k false tws router) routerInvoke search =
      .error .attributeError ∧
    NaiveRAG.query (NaiveRAG.init top_k false tws router) routerInvoke search
      summaryReply = .error .attributeError :=
  ⟨rfl, rfl⟩

end DeepSearcher
